import Mathlib

/-!
# Canton MPC PoC — verification of the off-ledger bridge core

This file gives a shallow embedding, in Lean 4, of the TypeScript bridge
client of the `canton-poc` repository, and proves properties of that
embedding.

Modeling conventions:

* JavaScript strings are modeled as `List Char` (their character sequences).
  Where a definition needs a string literal we write `"...".toList`.
* Byte sequences (`Uint8Array`, hex-decoded data) are `List Nat`, each
  element intended to be `< 256`.
* JavaScript `BigInt`/`number` arithmetic on nonnegative values is `Nat`
  arithmetic; 64-bit lane arithmetic inside Keccak is `Nat` arithmetic
  reduced modulo `2 ^ 64` at the points where the machine word wraps.
* `keccak256` (from the `viem` library) is embedded in full below
  (Keccak-f[1600], rate 1088, Ethereum / original-Keccak padding `0x01`).
* Asynchronous handlers are embedded as pure functions from their inputs
  (event payload, query results, transport outcomes — the values the real
  code obtains by `await`) to the commands/effects they emit.
-/

namespace CantonPoc

/-! ## Hex digits, hex strings and bytes -/

/-- Numeric value of one hex digit character (upper or lower case);
non-hex characters map to 0. -/
def hexDigitToNat (c : Char) : Nat :=
  if '0' ≤ c ∧ c ≤ '9' then c.toNat - '0'.toNat
  else if 'a' ≤ c ∧ c ≤ 'f' then c.toNat - 'a'.toNat + 10
  else if 'A' ≤ c ∧ c ≤ 'F' then c.toNat - 'A'.toNat + 10
  else 0

/-- The two lowercase hex characters of a byte `b < 256`. -/
def byteToHexChars (b : Nat) : List Char :=
  [Nat.digitChar (b / 16 % 16), Nat.digitChar (b % 16)]

/-- Lowercase hex rendering of a byte list (2 characters per byte). -/
def bytesToHexChars (bs : List Nat) : List Char :=
  (bs.map byteToHexChars).flatten

/-- Decode a hex character sequence into bytes, two characters per byte
(a dangling last character is dropped, as no caller produces one). -/
def hexCharsToBytes : List Char → List Nat
  | c1 :: c2 :: rest => (16 * hexDigitToNat c1 + hexDigitToNat c2) :: hexCharsToBytes rest
  | _ => []

/-- Big-endian value of a hex character sequence (the `BigInt("0x…")` parse). -/
def hexCharsToNat (l : List Char) : Nat :=
  l.foldl (fun a c => 16 * a + hexDigitToNat c) 0

/-- Big-endian value of a byte list. -/
def bytesBE (bs : List Nat) : Nat :=
  bs.foldl (fun a b => 256 * a + b) 0

/-- The hex digits of `n`, least significant first (empty for 0). -/
def natToHexRev (n : Nat) : List Char :=
  if h : n = 0 then [] else Nat.digitChar (n % 16) :: natToHexRev (n / 16)
termination_by n
decreasing_by exact Nat.div_lt_self (Nat.pos_of_ne_zero h) (by omega)

/-- JavaScript `n.toString(16)`: minimal lowercase hex, `"0"` for zero. -/
def natToHexMin (n : Nat) : List Char :=
  if n = 0 then ['0'] else (natToHexRev n).reverse

/-- JavaScript `String.prototype.padStart(w, c)` on character lists. -/
def padStartChars (w : Nat) (c : Char) (l : List Char) : List Char :=
  List.replicate (w - l.length) c ++ l

/-- UTF-8 bytes of a JavaScript string (`Buffer.from(s, "utf8")` /
viem `toBytes` on a plain string). -/
def utf8Bytes (l : List Char) : List Nat :=
  (String.mk l).toUTF8.toList.map (fun b => b.toNat)

/-! ## Keccak-256 (as used by `viem`'s `keccak256`) -/

/-- A 64-bit left rotation on `Nat` values below `2 ^ 64`. -/
def rotl64 (x r : Nat) : Nat :=
  ((x <<< (r % 64)) ||| (x >>> (64 - r % 64))) % 2 ^ 64

/-- Lane `i` (0-25, index `x + 5*y`) of a Keccak state. -/
def lane (s : List Nat) (i : Nat) : Nat := s.getD i 0

/-- Keccak θ step. -/
def keccakTheta (s : List Nat) : List Nat :=
  let c := (List.range 5).map fun x =>
    lane s x ^^^ lane s (x + 5) ^^^ lane s (x + 10) ^^^ lane s (x + 15) ^^^ lane s (x + 20)
  let d := (List.range 5).map fun x =>
    c.getD ((x + 4) % 5) 0 ^^^ rotl64 (c.getD ((x + 1) % 5) 0) 1
  (List.range 25).map fun i => lane s i ^^^ d.getD (i % 5) 0

/-- Keccak ρ rotation offsets, indexed by `x + 5*y` (one sublist per row
`y`). -/
def rhoOffsets : List Nat :=
  [0, 1, 62, 28, 27] ++ [36, 44, 6, 55, 20] ++ [3, 10, 43, 25, 39]
    ++ [41, 45, 15, 21, 8] ++ [18, 2, 61, 56, 14]

/-- Keccak ρ and π steps combined: `B[y, (2x+3y)%5] = rotl(A[x,y], r[x,y])`. -/
def keccakRhoPi (s : List Nat) : List Nat :=
  (List.range 25).foldl
    (fun b j =>
      let x := j % 5
      let y := j / 5
      b.set (y + 5 * ((2 * x + 3 * y) % 5)) (rotl64 (lane s j) (rhoOffsets.getD j 0)))
    (List.replicate 25 0)

/-- Keccak χ step: `A[x,y] = B[x,y] xor (not B[x+1,y] and B[x+2,y])`. -/
def keccakChi (s : List Nat) : List Nat :=
  (List.range 25).map fun j =>
    let x := j % 5
    let y := j / 5
    lane s j ^^^ (((2 ^ 64 - 1) ^^^ lane s ((x + 1) % 5 + 5 * y)) &&& lane s ((x + 2) % 5 + 5 * y))

/-- Keccak round constants. -/
def keccakRC : List Nat :=
  [0x0000000000000001, 0x0000000000008082, 0x800000000000808a, 0x8000000080008000,
   0x000000000000808b, 0x0000000080000001, 0x8000000080008081, 0x8000000000008009,
   0x000000000000008a, 0x0000000000000088, 0x0000000080008009, 0x000000008000000a,
   0x000000008000808b, 0x800000000000008b, 0x8000000000008089, 0x8000000000008003,
   0x8000000000008002, 0x8000000000000080, 0x000000000000800a, 0x800000008000000a,
   0x8000000080008081, 0x8000000000008080, 0x0000000080000001, 0x8000000080008008]

/-- One Keccak round: θ, ρ+π, χ, ι. -/
def keccakRound (s : List Nat) (rc : Nat) : List Nat :=
  let t := keccakChi (keccakRhoPi (keccakTheta s))
  t.set 0 (lane t 0 ^^^ rc)

/-- The Keccak-f[1600] permutation (24 rounds). -/
def keccakF (s : List Nat) : List Nat :=
  keccakRC.foldl keccakRound s

/-- Little-endian 64-bit lane value of (up to) 8 bytes. -/
def laneOfBytesLE (bs : List Nat) : Nat :=
  bs.foldr (fun b acc => b + 256 * acc) 0

/-- Original-Keccak multi-rate padding with domain byte `0x01`
(the padding Ethereum's keccak256 uses), rate 136 bytes. -/
def keccakPad (msg : List Nat) : List Nat :=
  let padlen := 136 - msg.length % 136
  if padlen = 1 then msg ++ [0x81]
  else msg ++ [0x01] ++ List.replicate (padlen - 2) 0 ++ [0x80]

/-- Absorb one 136-byte block into the state and permute. -/
def absorbBlock (st : List Nat) (block : List Nat) : List Nat :=
  keccakF ((List.range 25).map fun j =>
    if j < 17 then lane st j ^^^ laneOfBytesLE ((block.drop (8 * j)).take 8) else lane st j)

/-- Absorb a padded message (whose length is a multiple of 136). -/
def keccakAbsorb (padded : List Nat) : List Nat :=
  (List.range (padded.length / 136)).foldl
    (fun st i => absorbBlock st ((padded.drop (136 * i)).take 136)) (List.replicate 25 0)

/-- Squeeze the first 32 output bytes (lanes 0-3, little-endian). -/
def keccakSqueeze (st : List Nat) : List Nat :=
  (List.range 32).map fun i => (lane st (i / 8) >>> (8 * (i % 8))) % 256

/-- Keccak-256 of a byte sequence. -/
def keccak256 (msg : List Nat) : List Nat :=
  keccakSqueeze (keccakAbsorb (keccakPad msg))

/-- viem's `keccak256` applied to a `0x…` hex string: decode the hex
payload, hash, render as a `0x…` hex string. -/
def keccak256HexOfHex (hexPayload : List Char) : List Char :=
  '0' :: 'x' :: bytesToHexChars (keccak256 (hexCharsToBytes hexPayload))

/-- viem's `keccak256(toBytes(s))` for a plain (non-hex) string `s`:
hash the UTF-8 bytes, render as a `0x…` hex string. -/
def keccak256HexOfUtf8 (s : List Char) : List Char :=
  '0' :: 'x' :: bytesToHexChars (keccak256 (utf8Bytes s))

/-! ## `mpc/crypto.ts` — `packParams`, `computeRequestId` -/

/-- Transaction intent fields, each a hex string without `0x`
(source interface `EvmTransactionParams`). -/
structure EvmTransactionParams where
  toAddr : List Char
  functionSignature : List Char
  args : List (List Char)
  value : List Char
  nonce : List Char
  gasLimit : List Char
  maxFeePerGas : List Char
  maxPriorityFee : List Char
  chainId : List Char
deriving DecidableEq

/-- Source `textToHex`: hex encoding of a string's UTF-8 bytes. -/
def textToHex (s : List Char) : List Char := bytesToHexChars (utf8Bytes s)

/-- Source `uint32ToHex`: `n.toString(16).padStart(8, "0")`. -/
def uint32ToHex (n : Nat) : List Char := padStartChars 8 '0' (natToHexMin n)

/-- Source `packParams`: encode-packed concatenation of the intent fields at their
canonical widths (hex-character level, mirroring the source). -/
def packParams (p : EvmTransactionParams) : List Char :=
  padStartChars 40 '0' p.toAddr
    ++ textToHex p.functionSignature
    ++ p.args.flatten
    ++ padStartChars 64 '0' p.value
    ++ padStartChars 64 '0' p.nonce
    ++ padStartChars 64 '0' p.gasLimit
    ++ padStartChars 64 '0' p.maxFeePerGas
    ++ padStartChars 64 '0' p.maxPriorityFee
    ++ padStartChars 64 '0' p.chainId

/-- Source `computeRequestId`: keccak256 of the 8-field encode-packed layout
(`params` field is the empty string and contributes no bytes). -/
def computeRequestId (sender : List Char) (evmParams : EvmTransactionParams)
    (caip2Id : List Char) (keyVersion : Nat) (path : List Char) : List Char :=
  let payload := packParams evmParams
  let packed := textToHex sender ++ payload ++ textToHex caip2Id
    ++ uint32ToHex keyVersion ++ textToHex path
    ++ textToHex "ECDSA".toList ++ textToHex "ethereum".toList
  keccak256HexOfHex packed

/-! ## `mpc-service/signer.ts` — `deriveChildPrivateKey` -/

/-- Source constant EPSILON_DERIVATION_ PREFIX (renamed here). -/
def epsilonDerivationTag : List Char := "sig.network v2.0.0 epsilon derivation".toList

/-- The secp256k1 curve order `n`. -/
def CURVE_ORDER : Nat :=
  0xFFFFFFFFFFFFFFFFFFFFFFFFFFFFFFFEBAAEDCE6AF48A03BBFD25E8CD0364141

/-- JavaScript `BigInt("0x…")` on a 0x-prefixed hex string. -/
def bigIntOfHex (s : List Char) : Nat := hexCharsToNat (s.drop 2)

/-- Source `deriveChildPrivateKey`: `childKey = (root + epsilon) mod n`, with
`epsilon = keccak256("<tag>:<caip2Id>:<predecessorId>:<path>")`; the result
is rendered as a 0x-prefixed, 64-digit hex string. -/
def deriveChildPrivateKey (rootPrivateKey predecessorId path caip2Id : List Char) :
    List Char :=
  let derivationPath :=
    epsilonDerivationTag ++ ':' :: caip2Id ++ ':' :: predecessorId ++ ':' :: path
  let epsilon := keccak256HexOfUtf8 derivationPath
  let rootKey := bigIntOfHex rootPrivateKey
  let eps := bigIntOfHex epsilon
  let childKey := ((rootKey + eps) % CURVE_ORDER + CURVE_ORDER) % CURVE_ORDER
  '0' :: 'x' :: padStartChars 64 '0' (natToHexMin childKey)

/-! ## `mpc/address-derivation.ts` — `publicKeyToEthAddress` -/

/-- Source `publicKeyToEthAddress`: strip an optional `04` uncompressed-point tag,
keccak the coordinate bytes, keep the last 20 bytes. -/
def publicKeyToEthAddress (uncompressedPubKey : List Char) : List Char :=
  let stripped :=
    if ['0', '4'].isPrefixOf uncompressedPubKey then uncompressedPubKey.drop 2
    else uncompressedPubKey
  let hash := keccak256HexOfHex stripped
  '0' :: 'x' :: hash.drop 26

/-! ## `infra/canton-client.ts` — `allocateParty`, `submitAndWait` -/

/-- Result of an HTTP call made by the client: payload, or the serialized
error body (`JSON.stringify(error)`). -/
inductive HttpResult (α : Type) where
  | ok (data : α)
  | err (msg : List Char)

/-- JavaScript `String.prototype.includes`. -/
def hasInfixChars (l pat : List Char) : Bool :=
  if pat.isPrefixOf l then true
  else
    match l with
    | [] => false
    | _ :: t => hasInfixChars t pat

/-- Source `findPartyByHint`: first listed party whose identifier starts with
`"<hint>::"`. -/
def findPartyByHint (hint : List Char) (parties : List (List Char)) :
    Option (List Char) :=
  parties.find? (fun p => (hint ++ "::".toList).isPrefixOf p)

/-- Source `allocateParty`: `postResponse` is the outcome of `POST /v2/parties`,
`listedParties` the parties returned by `GET /v2/parties` in the fallback. -/
def allocateParty (hint : List Char) (postResponse : HttpResult (List Char))
    (listedParties : List (List Char)) : Except (List Char) (List Char) :=
  match postResponse with
  | .ok party => .ok party
  | .err msg =>
    if hasInfixChars msg "Party already exists".toList then
      match findPartyByHint hint listedParties with
      | some existing => .ok existing
      | none => .error ("allocateParty failed: ".toList ++ msg)
    else .error ("allocateParty failed: ".toList ++ msg)

/-- The request body built by `submitAndWait`. -/
structure CommandsEnvelope where
  commands : List (List Char)
  commandId : List Char
  userId : List Char
  actAs : List (List Char)
  readAs : List (List Char)
deriving DecidableEq

/-- Source `submitAndWait` builds this envelope; `uuid` is the value of the
`crypto.randomUUID()` call, passed explicitly because the source draws it
fresh from the runtime's randomness source on every invocation. -/
def submitAndWaitEnvelope (userId : List Char) (actAs : List (List Char))
    (commands : List (List Char)) (uuid : List Char) : CommandsEnvelope :=
  { commands := commands, commandId := uuid, userId := userId,
    actAs := actAs, readAs := actAs }

/-! ## `mpc-service/deposit-handler.ts` — `handlePendingEvmDeposit` -/

/-- Source `hexChainIdToDecimal`: numeric value of a hex chain id (the source's
leading-zero stripping does not change the parsed value). -/
def hexChainIdToDecimal (hexChainId : List Char) : Nat := hexCharsToNat hexChainId

/-- A `{ r, s, v }` recoverable signature as bare hex / recovery bit. -/
structure SigRSV where
  r : List Char
  s : List Char
  v : Nat
deriving DecidableEq

/-- Outcome of awaiting the Sepolia receipt: success status, reverted
status, or `waitForTransactionReceipt` threw (timeout / RPC failure). -/
inductive ReceiptOutcome where
  | success
  | reverted
  | unavailable
deriving DecidableEq

/-- One `exerciseChoice` ledger command. -/
structure ExerciseCmd where
  templateId : List Char
  choice : List Char
  choiceArgument : List (List Char)
deriving DecidableEq

/-- The `PendingEvmDeposit` payload fields the deposit handler reads. -/
structure DepositEvent where
  requester : List Char
  path : List Char
  requestId : List Char
  chainIdHex : List Char
deriving DecidableEq

/-- The ledger commands the MPC deposit handler submits on its success
path, in order. `signTx` models `signEvmTxHash` (the ECDSA backend,
applied to the derived child key), `outcomeSig` the value produced by
`signMpcResponse`, `receipt` the awaited Sepolia receipt; none of them
affects which commands are submitted. -/
def handlePendingEvmDeposit (rootPrivateKey : List Char) (ev : DepositEvent)
    (signTx : List Char → SigRSV) (outcomeSig : List Char)
    (receipt : ReceiptOutcome) : List ExerciseCmd :=
  let caip2Id := "eip155:".toList ++ (toString (hexChainIdToDecimal ev.chainIdHex)).toList
  let childPrivateKey := deriveChildPrivateKey rootPrivateKey ev.requester ev.path caip2Id
  let sig := signTx childPrivateKey
  let mpcOutput :=
    match receipt with
    | .success => "01".toList
    | _ => "00".toList
  [{ templateId := "Erc20Vault:VaultOrchestrator".toList,
     choice := "SignEvmTx".toList,
     choiceArgument := [ev.requestId, sig.r, sig.s] },
   { templateId := "Erc20Vault:VaultOrchestrator".toList,
     choice := "ProvideEvmOutcomeSig".toList,
     choiceArgument := [ev.requestId, outcomeSig, mpcOutput] }]

/-! ## Relayer handlers — `mpc-signature-handler.ts`, `tx-outcome-handler.ts` -/

/-- An active `PendingEvmDeposit` contract as returned by the current-state
query (with the one payload field the outcome handler extracts). -/
structure ActiveContract where
  contractId : List Char
  requestId : List Char
  amountArgHex : List Char
deriving DecidableEq

/-- The `contracts.find(...)` anchor lookup both relayer handlers perform. -/
def findPendingByRequestId (contracts : List ActiveContract)
    (requestId : List Char) : Option ActiveContract :=
  contracts.find? (fun c => c.requestId == requestId)

/-- Outward effects of a relayer handler: ledger commands submitted and raw
transactions sent to the external chain. -/
structure RelayerEffects where
  ledgerCommands : List ExerciseCmd
  evmSubmissions : List (List Char)
deriving DecidableEq

/-- Source `handleEcdsaSignature`: look up the pending deposit; skip if absent,
otherwise reconstruct the signed transaction and submit it to the external
chain (no ledger command on either branch). -/
def handleEcdsaSignature (contracts : List ActiveContract) (requestId : List Char)
    (reconstructSignedTx : ActiveContract → List Char) : RelayerEffects :=
  match findPendingByRequestId contracts requestId with
  | none => { ledgerCommands := [], evmSubmissions := [] }
  | some matching =>
    { ledgerCommands := [], evmSubmissions := [reconstructSignedTx matching] }

/-- Source `handleEvmTxOutcomeSignature`: look up the pending deposit; skip if
absent, otherwise exercise `ClaimEvmDeposit`. -/
def handleEvmTxOutcomeSignature (contracts : List ActiveContract)
    (requestId outcomeCid : List Char) : RelayerEffects :=
  match findPendingByRequestId contracts requestId with
  | none => { ledgerCommands := [], evmSubmissions := [] }
  | some matching =>
    { ledgerCommands :=
        [{ templateId := "Erc20Vault:VaultOrchestrator".toList,
           choice := "ClaimEvmDeposit".toList,
           choiceArgument := [matching.contractId, outcomeCid,
             (toString (hexCharsToNat matching.amountArgHex)).toList] }],
      evmSubmissions := [] }

/-! ## `infra/ledger-stream.ts` — the event stream client

The stream client's mutable closure state and its callbacks are embedded
as explicit state passing: each callback becomes a function from the state
(and the delivered transport data) to the next state plus the calls it
makes into the caller-supplied handlers. -/

/-- The stream options' numeric knobs, with their source defaults. -/
structure StreamConfig where
  maxReconnectDelayMs : Nat := 10000
  maxReconnectAttempts : Nat := 10
  pollingIdleTimeoutMs : Nat := 2000
  pollingErrorBackoffMs : Nat := 1000
deriving DecidableEq

/-- One delivered update item: its embedded offset (if any) and an
abstract payload identifier. -/
structure UpdateItem where
  offset : Option Nat
  payloadId : Nat
deriving DecidableEq

/-- The client's closure state: `closed`, `reconnectAttempt`,
`reconnectTimer`, `ws` (as a liveness flag), `currentOffset`. -/
structure StreamState where
  closed : Bool
  reconnectAttempt : Nat
  reconnectTimer : Option Nat
  wsActive : Bool
  currentOffset : Nat
deriving DecidableEq

/-- A call into the caller-supplied handlers (`onUpdate` / `onError`). -/
inductive StreamCall where
  | onUpdate (u : UpdateItem)
  | onError
deriving DecidableEq

/-- Source `extractOffset`. -/
def extractOffset (u : UpdateItem) : Option Nat := u.offset

/-- Source `handleUpdate`: advance the tracked cursor, then invoke `onUpdate`. -/
def handleUpdate (s : StreamState) (u : UpdateItem) : StreamState × List StreamCall :=
  (match extractOffset u with
   | some off => { s with currentOffset := off }
   | none => s,
   [StreamCall.onUpdate u])

/-- A WebSocket `message` event after `JSON.parse`: an error-wrapped
payload, a parsed update, or unparseable data. -/
inductive WsMessage where
  | errorPayload (code : Nat)
  | updatePayload (u : UpdateItem)
  | malformed (raw : Nat)
deriving DecidableEq

/-- The `ws.on("message")` callback. Mirrors the source: it does not
consult the `closed` flag. -/
def onWsMessage (s : StreamState) (m : WsMessage) : StreamState × List StreamCall :=
  match m with
  | .errorPayload _ => (s, [StreamCall.onError])
  | .malformed _ => (s, [StreamCall.onError])
  | .updatePayload u => handleUpdate s u

/-- What `scheduleReconnect` decides to do. -/
inductive ReconnectAction where
  | idle
  | fallbackPolling (fromOffset : Nat)
  | timerSet (delayMs : Nat)
deriving DecidableEq

/-- Source `scheduleReconnect`: exponential backoff capped at the configured
maximum, up to the configured attempt bound; beyond it, fall back to HTTP
polling from the currently tracked offset. -/
def scheduleReconnect (cfg : StreamConfig) (s : StreamState) :
    StreamState × ReconnectAction :=
  if s.closed then (s, .idle)
  else if cfg.maxReconnectAttempts ≤ s.reconnectAttempt then
    (s, .fallbackPolling s.currentOffset)
  else
    let delay := min (1000 * 2 ^ s.reconnectAttempt) cfg.maxReconnectDelayMs
    ({ s with reconnectAttempt := s.reconnectAttempt + 1, reconnectTimer := some delay },
     .timerSet delay)

/-- The `ws.on("close")` callback. -/
def onWsClose (cfg : StreamConfig) (s : StreamState) : StreamState × ReconnectAction :=
  if s.closed then (s, .idle)
  else scheduleReconnect cfg { s with wsActive := false }

/-- Source `connect`: a no-op once closed, otherwise brings a socket up. -/
def connect (s : StreamState) : StreamState :=
  if s.closed then s else { s with wsActive := true }

/-- Source `close()`: set `closed`, clear the reconnect timer, tear down the
socket. -/
def close (s : StreamState) : StreamState :=
  { s with closed := true, reconnectTimer := none, wsActive := false }

/-- Result of one `getUpdates` call in the polling loop. -/
inductive PollResult where
  | ok (items : List UpdateItem)
  | connError
deriving DecidableEq

/-- How the polling loop proceeds after one iteration. -/
inductive PollNext where
  | stop
  | again
  | backoff (ms : Nat)
deriving DecidableEq

/-- The `for` loop over one delivered batch: each item is dispatched via
`handleUpdate` unless `closed` became true. -/
def deliverBatch (s : StreamState) (items : List UpdateItem) :
    StreamState × List StreamCall :=
  items.foldl
    (fun acc u =>
      if acc.1.closed then acc
      else
        let r := handleUpdate acc.1 u
        (r.1, acc.2 ++ r.2))
    (s, [])

/-- One iteration of the `while (!closed)` polling loop: deliver the batch
on success; on error report it and back off for the configured fixed
delay, then continue. -/
def pollIteration (cfg : StreamConfig) (s : StreamState) (r : PollResult) :
    StreamState × List StreamCall × PollNext :=
  if s.closed then (s, [], .stop)
  else
    match r with
    | .ok items =>
      let d := deliverBatch s items
      (d.1, d.2, .again)
    | .connError => (s, [StreamCall.onError], .backoff cfg.pollingErrorBackoffMs)

/-! ## Spec-side formulations (compared against the embedded code) -/

/-- The 4-byte big-endian encoding of a 32-bit value. -/
def be32 (n : Nat) : List Nat :=
  [n / 2 ^ 24 % 256, n / 2 ^ 16 % 256, n / 2 ^ 8 % 256, n % 256]

/-- Left-pad a byte string with zero bytes to width `w`. -/
def leftPadBytes (w : Nat) (bs : List Nat) : List Nat :=
  List.replicate (w - bs.length) 0 ++ bs

/-- The packed byte layout of a transaction intent as the spec states it:
`to` at 20 bytes, UTF-8 bytes of the function signature, the argument
words concatenated, then each numeric field left-padded to 32 bytes. -/
def packParamsBytesSpec (p : EvmTransactionParams) : List Nat :=
  leftPadBytes 20 (hexCharsToBytes p.toAddr)
    ++ utf8Bytes p.functionSignature
    ++ (p.args.map hexCharsToBytes).flatten
    ++ leftPadBytes 32 (hexCharsToBytes p.value)
    ++ leftPadBytes 32 (hexCharsToBytes p.nonce)
    ++ leftPadBytes 32 (hexCharsToBytes p.gasLimit)
    ++ leftPadBytes 32 (hexCharsToBytes p.maxFeePerGas)
    ++ leftPadBytes 32 (hexCharsToBytes p.maxPriorityFee)
    ++ leftPadBytes 32 (hexCharsToBytes p.chainId)

/-- The request-id hash preimage as the spec states it. -/
def requestIdPreimageSpec (sender : List Char) (p : EvmTransactionParams)
    (caip2Id : List Char) (keyVersion : Nat) (path : List Char) : List Nat :=
  utf8Bytes sender ++ packParamsBytesSpec p ++ utf8Bytes caip2Id
    ++ be32 keyVersion ++ utf8Bytes path
    ++ utf8Bytes "ECDSA".toList ++ utf8Bytes "ethereum".toList

/-- Well-formed intent fields: hex strings of even length within their
canonical widths (the repository always stores exact-width fields). -/
def wfEvmParams (p : EvmTransactionParams) : Prop :=
  p.toAddr.length % 2 = 0 ∧ p.toAddr.length ≤ 40
    ∧ (∀ a ∈ p.args, a.length % 2 = 0)
    ∧ p.value.length % 2 = 0 ∧ p.value.length ≤ 64
    ∧ p.nonce.length % 2 = 0 ∧ p.nonce.length ≤ 64
    ∧ p.gasLimit.length % 2 = 0 ∧ p.gasLimit.length ≤ 64
    ∧ p.maxFeePerGas.length % 2 = 0 ∧ p.maxFeePerGas.length ≤ 64
    ∧ p.maxPriorityFee.length % 2 = 0 ∧ p.maxPriorityFee.length ≤ 64
    ∧ p.chainId.length % 2 = 0 ∧ p.chainId.length ≤ 64

instance (p : EvmTransactionParams) : Decidable (wfEvmParams p) := by
  unfold wfEvmParams
  infer_instance

/-- The epsilon offset of a derivation context, as a big-endian integer:
the keccak digest of the colon-joined domain-separated derivation string. -/
def epsilonOf (predecessorId path caip2Id : List Char) : Nat :=
  bytesBE (keccak256 (utf8Bytes
    (epsilonDerivationTag ++ ':' :: caip2Id ++ ':' :: predecessorId ++ ':' :: path)))

/-! ## Lemmas: hex encoding and decoding -/

theorem hexDigit_roundtrip (d : Nat) (h : d < 16) :
    hexDigitToNat (Nat.digitChar d) = d := by
  interval_cases d <;> decide

theorem hexDigitToNat_le (c : Char) : hexDigitToNat c ≤ 15 := by
  unfold hexDigitToNat
  have e0 : '0'.toNat = 48 := rfl
  have ea : 'a'.toNat = 97 := rfl
  have eA : 'A'.toNat = 65 := rfl
  split
  · next h =>
    have h2 : c.toNat ≤ 57 := h.2
    omega
  split
  · next h =>
    have h2 : c.toNat ≤ 102 := h.2
    omega
  split
  · next h =>
    have h2 : c.toNat ≤ 70 := h.2
    omega
  omega

theorem length_hexCharsToBytes (l : List Char) :
    (hexCharsToBytes l).length = l.length / 2 := by
  induction l using hexCharsToBytes.induct with
  | case1 c1 c2 rest ih => simp [hexCharsToBytes, ih]; omega
  | case2 l hl =>
    cases l with
    | nil => simp [hexCharsToBytes]
    | cons c t =>
      cases t with
      | nil => simp [hexCharsToBytes]
      | cons c2 t2 => exact absurd rfl (hl c c2 t2)

theorem hexCharsToBytes_lt (l : List Char) : ∀ b ∈ hexCharsToBytes l, b < 256 := by
  induction l using hexCharsToBytes.induct with
  | case1 c1 c2 rest ih =>
    simp only [hexCharsToBytes, List.mem_cons]
    intro b hb
    rcases hb with hb | hb
    · have := hexDigitToNat_le c1
      have := hexDigitToNat_le c2
      omega
    · exact ih b hb
  | case2 l hl =>
    cases l with
    | nil => simp [hexCharsToBytes]
    | cons c t =>
      cases t with
      | nil => simp [hexCharsToBytes]
      | cons c2 t2 => exact absurd rfl (hl c c2 t2)

theorem hexCharsToBytes_append (l1 l2 : List Char) (h : l1.length % 2 = 0) :
    hexCharsToBytes (l1 ++ l2) = hexCharsToBytes l1 ++ hexCharsToBytes l2 := by
  induction l1 using hexCharsToBytes.induct with
  | case1 c1 c2 rest ih =>
    simp at h
    simp [hexCharsToBytes]
    exact ih (by omega)
  | case2 l hl =>
    cases l with
    | nil => simp [hexCharsToBytes]
    | cons c t =>
      cases t with
      | nil => simp at h
      | cons c2 t2 => exact absurd rfl (hl c c2 t2)

theorem hexCharsToBytes_byteChars (b : Nat) (hb : b < 256) (t : List Char) :
    hexCharsToBytes (byteToHexChars b ++ t) = b :: hexCharsToBytes t := by
  have h1 : b / 16 % 16 < 16 := Nat.mod_lt _ (by omega)
  have h2 : b % 16 < 16 := Nat.mod_lt _ (by omega)
  simp only [byteToHexChars, List.cons_append, List.nil_append, hexCharsToBytes]
  rw [hexDigit_roundtrip _ h1, hexDigit_roundtrip _ h2]
  congr 1
  omega

theorem hexCharsToBytes_hexOfBytes (bs : List Nat) (hb : ∀ b ∈ bs, b < 256)
    (t : List Char) :
    hexCharsToBytes (bytesToHexChars bs ++ t) = bs ++ hexCharsToBytes t := by
  induction bs with
  | nil => simp [bytesToHexChars]
  | cons b rest ih =>
    have hb0 : b < 256 := hb b (List.mem_cons_self b rest)
    have hforall : ∀ x ∈ rest, x < 256 := fun x hx => hb x (List.mem_cons_of_mem b hx)
    simp only [bytesToHexChars, List.map_cons, List.flatten_cons, List.append_assoc]
    rw [hexCharsToBytes_byteChars b hb0]
    simp only [List.cons_append]
    congr 1
    exact ih hforall

theorem hexCharsToBytes_hexOfBytes_eq (bs : List Nat) (hb : ∀ b ∈ bs, b < 256) :
    hexCharsToBytes (bytesToHexChars bs) = bs := by
  have := hexCharsToBytes_hexOfBytes bs hb []
  simpa [hexCharsToBytes] using this

theorem length_bytesToHexChars (bs : List Nat) :
    (bytesToHexChars bs).length = 2 * bs.length := by
  induction bs with
  | nil => simp [bytesToHexChars]
  | cons b rest ih =>
    simp only [bytesToHexChars] at ih
    simp only [bytesToHexChars, List.map_cons, List.flatten_cons, List.length_append,
      List.length_cons, ih]
    have : (byteToHexChars b).length = 2 := rfl
    omega

theorem foldl_hexCharsToBytes (l : List Char) (h : l.length % 2 = 0) (a : Nat) :
    (hexCharsToBytes l).foldl (fun x b => 256 * x + b) a
      = l.foldl (fun x c => 16 * x + hexDigitToNat c) a := by
  induction l using hexCharsToBytes.induct generalizing a with
  | case1 c1 c2 rest ih =>
    simp at h
    simp [hexCharsToBytes, List.foldl]
    rw [ih (by omega)]
    congr 1
    ring
  | case2 l hl =>
    cases l with
    | nil => simp [hexCharsToBytes]
    | cons c t =>
      cases t with
      | nil => simp at h
      | cons c2 t2 => exact absurd rfl (hl c c2 t2)

theorem bytesBE_hexCharsToBytes (l : List Char) (h : l.length % 2 = 0) :
    bytesBE (hexCharsToBytes l) = hexCharsToNat l :=
  foldl_hexCharsToBytes l h 0

theorem foldl_bytesToHexChars (bs : List Nat) (hb : ∀ b ∈ bs, b < 256) (a : Nat) :
    (bytesToHexChars bs).foldl (fun x c => 16 * x + hexDigitToNat c) a
      = bs.foldl (fun x b => 256 * x + b) a := by
  induction bs generalizing a with
  | nil => simp [bytesToHexChars]
  | cons b rest ih =>
    have hb0 : b < 256 := hb b (List.mem_cons_self b rest)
    have h1 : b / 16 % 16 < 16 := Nat.mod_lt _ (by omega)
    have h2 : b % 16 < 16 := Nat.mod_lt _ (by omega)
    simp only [bytesToHexChars, List.map_cons, List.flatten_cons, List.foldl_append,
      byteToHexChars, List.foldl_cons, List.foldl_nil]
    rw [hexDigit_roundtrip _ h1, hexDigit_roundtrip _ h2]
    have harg : 16 * (16 * a + b / 16 % 16) + b % 16 = 256 * a + b := by omega
    rw [harg]
    exact ih (fun x hx => hb x (List.mem_cons_of_mem b hx)) _

theorem hexCharsToNat_bytesToHexChars (bs : List Nat) (hb : ∀ b ∈ bs, b < 256) :
    hexCharsToNat (bytesToHexChars bs) = bytesBE bs :=
  foldl_bytesToHexChars bs hb 0

theorem hexCharsToNat_replicate_zero (k : Nat) (l : List Char) :
    hexCharsToNat (List.replicate k '0' ++ l) = hexCharsToNat l := by
  induction k with
  | zero => simp
  | succ m ih =>
    simp only [List.replicate_succ, List.cons_append, hexCharsToNat, List.foldl_cons] at *
    have : 16 * 0 + hexDigitToNat '0' = 0 := by decide
    rw [this]
    exact ih

theorem foldl_natToHexRev (n : Nat) : ∀ a : Nat,
    (natToHexRev n).reverse.foldl (fun x c => 16 * x + hexDigitToNat c) a
      = a * 16 ^ (natToHexRev n).length + n := by
  induction n using Nat.strong_induction_on with
  | _ n ih =>
    intro a
    by_cases h : n = 0
    · subst h
      rw [natToHexRev]
      simp
    · rw [natToHexRev]
      simp only [h, dite_false, List.reverse_cons, List.foldl_append, List.length_cons]
      rw [ih (n / 16) (Nat.div_lt_self (Nat.pos_of_ne_zero h) (by omega)) a]
      simp only [List.foldl_cons, List.foldl_nil]
      rw [hexDigit_roundtrip (n % 16) (Nat.mod_lt _ (by omega))]
      rw [pow_succ]
      have := Nat.div_add_mod n 16
      ring_nf
      omega

theorem hexCharsToNat_natToHexMin (n : Nat) : hexCharsToNat (natToHexMin n) = n := by
  unfold natToHexMin hexCharsToNat
  by_cases h : n = 0
  · simp [h]; decide
  · simp only [h, if_false]
    rw [foldl_natToHexRev n 0]
    simp

theorem hexCharsToNat_padStart_natToHexMin (w n : Nat) :
    hexCharsToNat (padStartChars w '0' (natToHexMin n)) = n := by
  unfold padStartChars
  rw [show (hexCharsToNat (List.replicate (w - (natToHexMin n).length) '0' ++ natToHexMin n)
      = hexCharsToNat (natToHexMin n)) from hexCharsToNat_replicate_zero _ _]
  exact hexCharsToNat_natToHexMin n

theorem natToHexRev_length_le (n w : Nat) (h : n < 16 ^ w) :
    (natToHexRev n).length ≤ w := by
  induction n using Nat.strong_induction_on generalizing w with
  | _ n ih =>
    by_cases h0 : n = 0
    · subst h0; rw [natToHexRev]; simp
    · rw [natToHexRev]
      simp only [h0, dite_false, List.length_cons]
      have hw : 1 ≤ w := by
        by_contra hc
        have hz : w = 0 := by omega
        subst hz
        simp at h
        omega
      have hdiv : n / 16 < 16 ^ (w - 1) := by
        have : 16 ^ w = 16 * 16 ^ (w - 1) := by
          conv_lhs => rw [show w = 1 + (w - 1) by omega]
          rw [pow_add, pow_one]
        omega
      have := ih (n / 16) (Nat.div_lt_self (Nat.pos_of_ne_zero h0) (by omega)) (w - 1) hdiv
      omega

theorem natToHexMin_length_le (n w : Nat) (hw : 1 ≤ w) (h : n < 16 ^ w) :
    (natToHexMin n).length ≤ w := by
  unfold natToHexMin
  by_cases h0 : n = 0
  · simp [h0]; omega
  · simp only [h0, if_false, List.length_reverse]
    exact natToHexRev_length_le n w h

theorem length_padStartChars (w : Nat) (c : Char) (l : List Char) :
    (padStartChars w c l).length = max w l.length := by
  simp [padStartChars]
  omega

theorem uint32ToHex_length (n : Nat) (h : n < 2 ^ 32) : (uint32ToHex n).length = 8 := by
  unfold uint32ToHex
  rw [length_padStartChars]
  have : (natToHexMin n).length ≤ 8 := natToHexMin_length_le n 8 (by omega) (by norm_num at h ⊢; omega)
  omega

theorem utf8Bytes_lt (l : List Char) : ∀ b ∈ utf8Bytes l, b < 256 := by
  simp only [utf8Bytes, List.mem_map]
  rintro b ⟨u, _, rfl⟩
  exact u.toNat_lt

/-! ## Lemmas: fixed-width byte encodings -/

theorem bytesBE_be32 (n : Nat) (h : n < 2 ^ 32) : bytesBE (be32 n) = n := by
  simp [bytesBE, be32, List.foldl]
  omega

theorem be32_lt (n : Nat) : ∀ b ∈ be32 n, b < 256 := by
  simp only [be32, List.mem_cons, List.not_mem_nil, or_false]
  intro b hb
  rcases hb with rfl | rfl | rfl | rfl <;> exact Nat.mod_lt _ (by omega)

theorem bytesBE_len4_inj (l1 l2 : List Nat) (h1 : l1.length = 4) (h2 : l2.length = 4)
    (hb1 : ∀ b ∈ l1, b < 256) (hb2 : ∀ b ∈ l2, b < 256)
    (he : bytesBE l1 = bytesBE l2) : l1 = l2 := by
  rcases l1 with _ | ⟨a1, _ | ⟨b1, _ | ⟨c1, _ | ⟨d1, _ | _⟩⟩⟩⟩ <;> simp_all
  rcases l2 with _ | ⟨a2, _ | ⟨b2, _ | ⟨c2, _ | ⟨d2, _ | _⟩⟩⟩⟩ <;> simp_all
  simp [bytesBE, List.foldl] at he
  omega

theorem hexCharsToBytes_uint32ToHex (n : Nat) (h : n < 2 ^ 32) :
    hexCharsToBytes (uint32ToHex n) = be32 n := by
  have hlen8 : (uint32ToHex n).length = 8 := uint32ToHex_length n h
  apply bytesBE_len4_inj
  · rw [length_hexCharsToBytes, hlen8]
  · simp [be32]
  · exact hexCharsToBytes_lt _
  · exact be32_lt n
  · rw [bytesBE_hexCharsToBytes _ (by rw [hlen8]), bytesBE_be32 n h]
    unfold uint32ToHex
    exact hexCharsToNat_padStart_natToHexMin 8 n

theorem bytesToHexChars_replicate_zero (m : Nat) :
    bytesToHexChars (List.replicate m 0) = List.replicate (2 * m) '0' := by
  induction m with
  | zero => simp [bytesToHexChars]
  | succ k ih =>
    rw [List.replicate_succ, show 2 * (k + 1) = (2 * k) + 1 + 1 by omega,
      List.replicate_succ, List.replicate_succ]
    simp only [bytesToHexChars, List.map_cons, List.flatten_cons] at *
    rw [ih]
    simp only [byteToHexChars, List.cons_append, List.nil_append]
    norm_num [Nat.digitChar]

theorem hexCharsToBytes_replicate_zero (m : Nat) (t : List Char) :
    hexCharsToBytes (List.replicate (2 * m) '0' ++ t)
      = List.replicate m 0 ++ hexCharsToBytes t := by
  rw [← bytesToHexChars_replicate_zero]
  exact hexCharsToBytes_hexOfBytes _ (by simp) t

theorem hexCharsToBytes_padStart_even (k : Nat) (v : List Char)
    (hv : v.length % 2 = 0) (hk : v.length ≤ 2 * k) :
    hexCharsToBytes (padStartChars (2 * k) '0' v)
      = leftPadBytes k (hexCharsToBytes v) := by
  unfold padStartChars leftPadBytes
  rw [show 2 * k - v.length = 2 * (k - v.length / 2) by omega]
  rw [hexCharsToBytes_replicate_zero, length_hexCharsToBytes]

/-! ## Lemmas: Keccak output shape -/

theorem keccak256_length (msg : List Nat) : (keccak256 msg).length = 32 := by
  simp [keccak256, keccakSqueeze]

theorem keccak256_lt (msg : List Nat) : ∀ b ∈ keccak256 msg, b < 256 := by
  simp only [keccak256, keccakSqueeze, List.mem_map, List.mem_range]
  rintro b ⟨i, _, rfl⟩
  exact Nat.mod_lt _ (by omega)

theorem bigIntOfHex_keccak256HexOfUtf8 (s : List Char) :
    bigIntOfHex (keccak256HexOfUtf8 s) = bytesBE (keccak256 (utf8Bytes s)) := by
  show hexCharsToNat (List.drop 2 ('0' :: 'x' :: bytesToHexChars (keccak256 (utf8Bytes s))))
    = bytesBE (keccak256 (utf8Bytes s))
  rw [List.drop_succ_cons, List.drop_succ_cons, List.drop_zero]
  exact hexCharsToNat_bytesToHexChars _ (keccak256_lt _)

theorem bigIntOfHex_padded_hex (v : Nat) :
    bigIntOfHex ('0' :: 'x' :: padStartChars 64 '0' (natToHexMin v)) = v := by
  show hexCharsToNat (List.drop 2 ('0' :: 'x' :: padStartChars 64 '0' (natToHexMin v))) = v
  rw [List.drop_succ_cons, List.drop_succ_cons, List.drop_zero]
  exact hexCharsToNat_padStart_natToHexMin 64 v

/-! ## Claim theorems -/

/-- Claim C2: for every root private key and derivation context,
`deriveChildPrivateKey` returns (as a hex string) the value
`(root + epsilon) mod n`, where `epsilon` is the keccak digest of the
domain-separated derivation string (big-endian) and `n` the secp256k1
curve order; the function is pure, so identical inputs give identical
child keys. -/
theorem claim2_deriveChildPrivateKey_formula
    (rootPrivateKey predecessorId path caip2Id : List Char) :
    bigIntOfHex (deriveChildPrivateKey rootPrivateKey predecessorId path caip2Id)
        = (bigIntOfHex rootPrivateKey + epsilonOf predecessorId path caip2Id) % CURVE_ORDER
      ∧ deriveChildPrivateKey rootPrivateKey predecessorId path caip2Id
          = deriveChildPrivateKey rootPrivateKey predecessorId path caip2Id := by
  refine ⟨?_, rfl⟩
  unfold deriveChildPrivateKey
  rw [bigIntOfHex_padded_hex]
  rw [bigIntOfHex_keccak256HexOfUtf8]
  rw [Nat.add_mod_right]
  rw [Nat.mod_mod_of_dvd _ (dvd_refl CURVE_ORDER)]
  rfl

/-- Claim C8 (behavior of the code at the claimed failing inputs): for
every derivation context, the root key of value
`n - (epsilon mod n)` makes the derived child scalar zero, and
`deriveChildPrivateKey` returns the all-zero key rather than raising an
error — the source has no zero-key check and no error path. -/
theorem claim8_zero_child_returned (predecessorId path caip2Id : List Char) :
    deriveChildPrivateKey
        ('0' :: 'x' :: padStartChars 64 '0' (natToHexMin
          (CURVE_ORDER - epsilonOf predecessorId path caip2Id % CURVE_ORDER)))
        predecessorId path caip2Id
      = '0' :: 'x' :: List.replicate 64 '0' := by
  have hN : 0 < CURVE_ORDER := by norm_num [CURVE_ORDER]
  unfold deriveChildPrivateKey
  dsimp only
  rw [bigIntOfHex_padded_hex, bigIntOfHex_keccak256HexOfUtf8]
  have heps : bytesBE (keccak256 (utf8Bytes
      (epsilonDerivationTag ++ ':' :: caip2Id ++ ':' :: predecessorId ++ ':' :: path)))
      = epsilonOf predecessorId path caip2Id := rfl
  rw [heps]
  set e := epsilonOf predecessorId path caip2Id with he
  have hsum : CURVE_ORDER - e % CURVE_ORDER + e
      = CURVE_ORDER * (1 + e / CURVE_ORDER) := by
    have hd := Nat.div_add_mod e CURVE_ORDER
    have hm : e % CURVE_ORDER < CURVE_ORDER := Nat.mod_lt _ hN
    calc CURVE_ORDER - e % CURVE_ORDER + e
        = CURVE_ORDER - e % CURVE_ORDER + (CURVE_ORDER * (e / CURVE_ORDER) + e % CURVE_ORDER) := by
          rw [hd]
      _ = CURVE_ORDER - e % CURVE_ORDER + e % CURVE_ORDER + CURVE_ORDER * (e / CURVE_ORDER) := by
          ring
      _ = CURVE_ORDER + CURVE_ORDER * (e / CURVE_ORDER) := by
          rw [Nat.sub_add_cancel (le_of_lt hm)]
      _ = CURVE_ORDER * (1 + e / CURVE_ORDER) := by ring
  rw [hsum, Nat.mul_mod_right, Nat.zero_add, Nat.mod_self]
  have hz : natToHexMin 0 = ['0'] := rfl
  rw [hz]
  have hpad : padStartChars 64 '0' ['0'] = List.replicate 64 '0' := by decide
  rw [hpad]

theorem hexCharsToBytes_textToHex (s : List Char) :
    hexCharsToBytes (textToHex s) = utf8Bytes s :=
  hexCharsToBytes_hexOfBytes_eq _ (utf8Bytes_lt s)

theorem textToHex_length_even (s : List Char) : (textToHex s).length % 2 = 0 := by
  simp [textToHex, length_bytesToHexChars]

theorem flatten_length_even (ls : List (List Char))
    (h : ∀ a ∈ ls, a.length % 2 = 0) : ls.flatten.length % 2 = 0 := by
  induction ls with
  | nil => simp
  | cons a t ih =>
    simp only [List.flatten_cons, List.length_append]
    have ha := h a (List.mem_cons_self a t)
    have ht := ih (fun x hx => h x (List.mem_cons_of_mem a hx))
    omega

theorem hexCharsToBytes_flatten (ls : List (List Char))
    (h : ∀ a ∈ ls, a.length % 2 = 0) :
    hexCharsToBytes ls.flatten = (ls.map hexCharsToBytes).flatten := by
  induction ls with
  | nil => simp [hexCharsToBytes]
  | cons a t ih =>
    simp only [List.flatten_cons, List.map_cons]
    rw [hexCharsToBytes_append a _ (h a (List.mem_cons_self a t))]
    rw [ih (fun x hx => h x (List.mem_cons_of_mem a hx))]

theorem hexCharsToBytes_padStart64 (v : List Char) (hv : v.length % 2 = 0)
    (h64 : v.length ≤ 64) :
    hexCharsToBytes (padStartChars 64 '0' v) = leftPadBytes 32 (hexCharsToBytes v) := by
  have h := hexCharsToBytes_padStart_even 32 v hv (by omega)
  norm_num at h
  exact h

theorem hexCharsToBytes_padStart40 (v : List Char) (hv : v.length % 2 = 0)
    (h40 : v.length ≤ 40) :
    hexCharsToBytes (padStartChars 40 '0' v) = leftPadBytes 20 (hexCharsToBytes v) := by
  have h := hexCharsToBytes_padStart_even 20 v hv (by omega)
  norm_num at h
  exact h

theorem packParams_length_even (p : EvmTransactionParams) (hp : wfEvmParams p) :
    (packParams p).length % 2 = 0 := by
  obtain ⟨hto_e, hto_le, hargs, hv_e, hv_le, hn_e, hn_le, hg_e, hg_le,
    hf_e, hf_le, hpr_e, hpr_le, hc_e, hc_le⟩ := hp
  unfold packParams
  simp only [List.length_append, length_padStartChars]
  have hfs := textToHex_length_even p.functionSignature
  have hfl := flatten_length_even p.args hargs
  omega

theorem hexCharsToBytes_packParams (p : EvmTransactionParams) (hp : wfEvmParams p) :
    hexCharsToBytes (packParams p) = packParamsBytesSpec p := by
  obtain ⟨hto_e, hto_le, hargs, hv_e, hv_le, hn_e, hn_le, hg_e, hg_le,
    hf_e, hf_le, hpr_e, hpr_le, hc_e, hc_le⟩ := hp
  have e40 : (padStartChars 40 '0' p.toAddr).length % 2 = 0 := by
    rw [length_padStartChars]; omega
  have e64v : (padStartChars 64 '0' p.value).length % 2 = 0 := by
    rw [length_padStartChars]; omega
  have e64n : (padStartChars 64 '0' p.nonce).length % 2 = 0 := by
    rw [length_padStartChars]; omega
  have e64g : (padStartChars 64 '0' p.gasLimit).length % 2 = 0 := by
    rw [length_padStartChars]; omega
  have e64f : (padStartChars 64 '0' p.maxFeePerGas).length % 2 = 0 := by
    rw [length_padStartChars]; omega
  have e64pr : (padStartChars 64 '0' p.maxPriorityFee).length % 2 = 0 := by
    rw [length_padStartChars]; omega
  unfold packParams packParamsBytesSpec
  simp only [List.append_assoc]
  rw [hexCharsToBytes_append _ _ e40, hexCharsToBytes_padStart40 _ hto_e hto_le]
  rw [hexCharsToBytes_append _ _ (textToHex_length_even _), hexCharsToBytes_textToHex]
  rw [hexCharsToBytes_append _ _ (flatten_length_even _ hargs),
    hexCharsToBytes_flatten _ hargs]
  rw [hexCharsToBytes_append _ _ e64v, hexCharsToBytes_padStart64 _ hv_e hv_le]
  rw [hexCharsToBytes_append _ _ e64n, hexCharsToBytes_padStart64 _ hn_e hn_le]
  rw [hexCharsToBytes_append _ _ e64g, hexCharsToBytes_padStart64 _ hg_e hg_le]
  rw [hexCharsToBytes_append _ _ e64f, hexCharsToBytes_padStart64 _ hf_e hf_le]
  rw [hexCharsToBytes_append _ _ e64pr, hexCharsToBytes_padStart64 _ hpr_e hpr_le]
  rw [hexCharsToBytes_padStart64 _ hc_e hc_le]

/-- Claim C1: `computeRequestId` equals keccak256 of the concatenation of
the UTF-8 bytes of the sender, the packed intent bytes (`to` at 20 bytes,
UTF-8 function signature, concatenated argument words, then the numeric
fields each left-padded to 32 bytes), the UTF-8 bytes of the CAIP-2 id,
the key version as 4-byte big-endian, and the UTF-8 bytes of the path,
`"ECDSA"` and `"ethereum"`; the digest is 32 bytes, and the function is
deterministic (a pure function of its inputs, fully determined by the
stated formula). -/
theorem claim1_computeRequestId_layout (sender caip2Id path : List Char)
    (p : EvmTransactionParams) (keyVersion : Nat)
    (hp : wfEvmParams p) (hkv : keyVersion < 2 ^ 32) :
    computeRequestId sender p caip2Id keyVersion path
        = '0' :: 'x' :: bytesToHexChars (keccak256
            (requestIdPreimageSpec sender p caip2Id keyVersion path))
      ∧ (keccak256 (requestIdPreimageSpec sender p caip2Id keyVersion path)).length
          = 32 := by
  refine ⟨?_, keccak256_length _⟩
  have ekv : (uint32ToHex keyVersion).length % 2 = 0 := by
    rw [uint32ToHex_length _ hkv]
  have hinner : hexCharsToBytes
      (textToHex sender ++ packParams p ++ textToHex caip2Id
        ++ uint32ToHex keyVersion ++ textToHex path
        ++ textToHex "ECDSA".toList ++ textToHex "ethereum".toList)
      = requestIdPreimageSpec sender p caip2Id keyVersion path := by
    unfold requestIdPreimageSpec
    simp only [List.append_assoc]
    rw [hexCharsToBytes_append _ _ (textToHex_length_even sender),
      hexCharsToBytes_textToHex]
    rw [hexCharsToBytes_append _ _ (packParams_length_even p hp),
      hexCharsToBytes_packParams p hp]
    rw [hexCharsToBytes_append _ _ (textToHex_length_even caip2Id),
      hexCharsToBytes_textToHex]
    rw [hexCharsToBytes_append _ _ ekv, hexCharsToBytes_uint32ToHex _ hkv]
    rw [hexCharsToBytes_append _ _ (textToHex_length_even path),
      hexCharsToBytes_textToHex]
    rw [hexCharsToBytes_append _ _ (textToHex_length_even _),
      hexCharsToBytes_textToHex]
    rw [hexCharsToBytes_textToHex]
  unfold computeRequestId keccak256HexOfHex
  dsimp only
  rw [hinner]

/-- Claim C1 witness: the sample intent from the repository's test suite
is well-formed and the layout theorem applies to it. -/
theorem claim1_witness :
    wfEvmParams
        { toAddr := "a0b86991c6218b36c1d19d4a2e9eb0ce3606eb48".toList
          functionSignature := "transfer(address,uint256)".toList
          args := ["000000000000000000000000d8da6bf26964af9d7eed9e03e53415d37aa96045".toList,
            "0000000000000000000000000000000000000000000000000000000005f5e100".toList]
          value := "0000000000000000000000000000000000000000000000000000000000000000".toList
          nonce := "0000000000000000000000000000000000000000000000000000000000000001".toList
          gasLimit := "000000000000000000000000000000000000000000000000000000000000c350".toList
          maxFeePerGas := "00000000000000000000000000000000000000000000000000000001dcd65000".toList
          maxPriorityFee := "000000000000000000000000000000000000000000000000000000003b9aca00".toList
          chainId := "0000000000000000000000000000000000000000000000000000000000aa36a7".toList }
      ∧ (1 : Nat) < 2 ^ 32
      ∧ (computeRequestId "Issuer::1220abcdef".toList
            { toAddr := "a0b86991c6218b36c1d19d4a2e9eb0ce3606eb48".toList
              functionSignature := "transfer(address,uint256)".toList
              args := ["000000000000000000000000d8da6bf26964af9d7eed9e03e53415d37aa96045".toList,
                "0000000000000000000000000000000000000000000000000000000005f5e100".toList]
              value := "0000000000000000000000000000000000000000000000000000000000000000".toList
              nonce := "0000000000000000000000000000000000000000000000000000000000000001".toList
              gasLimit := "000000000000000000000000000000000000000000000000000000000000c350".toList
              maxFeePerGas := "00000000000000000000000000000000000000000000000000000001dcd65000".toList
              maxPriorityFee := "000000000000000000000000000000000000000000000000000000003b9aca00".toList
              chainId := "0000000000000000000000000000000000000000000000000000000000aa36a7".toList }
            "eip155:11155111".toList 1 "m/44/60/0/0".toList
          = '0' :: 'x' :: bytesToHexChars (keccak256
              (requestIdPreimageSpec "Issuer::1220abcdef".toList
                { toAddr := "a0b86991c6218b36c1d19d4a2e9eb0ce3606eb48".toList
                  functionSignature := "transfer(address,uint256)".toList
                  args := ["000000000000000000000000d8da6bf26964af9d7eed9e03e53415d37aa96045".toList,
                    "0000000000000000000000000000000000000000000000000000000005f5e100".toList]
                  value := "0000000000000000000000000000000000000000000000000000000000000000".toList
                  nonce := "0000000000000000000000000000000000000000000000000000000000000001".toList
                  gasLimit := "000000000000000000000000000000000000000000000000000000000000c350".toList
                  maxFeePerGas := "00000000000000000000000000000000000000000000000000000001dcd65000".toList
                  maxPriorityFee := "000000000000000000000000000000000000000000000000000000003b9aca00".toList
                  chainId := "0000000000000000000000000000000000000000000000000000000000aa36a7".toList }
                "eip155:11155111".toList 1 "m/44/60/0/0".toList))) := by
  refine ⟨?_, by norm_num, ?_⟩
  · decide
  · exact (claim1_computeRequestId_layout "Issuer::1220abcdef".toList
      "eip155:11155111".toList "m/44/60/0/0".toList _ 1 (by decide) (by norm_num)).1

/-- Claim C3 counterexample: two submissions built from the same
triggering event (same user, parties and commands) carry different
command identifiers when the runtime's `crypto.randomUUID()` returns
different draws — the identifier is not a function of the event's key
fields, so the ledger cannot deduplicate a retry by identifier. -/
theorem claim3_random_commandId_cex :
    (submitAndWaitEnvelope "relayer".toList ["Issuer::p1".toList]
        ["Exercise SignEvmTx req-7".toList] "c3f1a2d0".toList).commandId
      ≠ (submitAndWaitEnvelope "relayer".toList ["Issuer::p1".toList]
        ["Exercise SignEvmTx req-7".toList] "9d4e5b66".toList).commandId := by
  decide

/-- Claim C3 (amended): the command identifier of a submission is exactly
the fresh `crypto.randomUUID()` draw of that call — independent of the
triggering event's fields — while the command list and read-parties are
passed through unchanged. -/
theorem claim3_commandId_is_the_uuid (userId uuid : List Char)
    (actAs commands : List (List Char)) :
    (submitAndWaitEnvelope userId actAs commands uuid).commandId = uuid
      ∧ (submitAndWaitEnvelope userId actAs commands uuid).commands = commands
      ∧ (submitAndWaitEnvelope userId actAs commands uuid).readAs = actAs :=
  ⟨rfl, rfl, rfl⟩

/-- Claim C4 counterexample: the Signer's handler for one anchor event
submits two ledger commands on its success path, not one. -/
theorem claim4_exactly_one_command_cex :
    (handlePendingEvmDeposit "0x01".toList
        { requester := "Depositor::d1".toList, path := "m/44/60/0/0".toList,
          requestId := "req1".toList, chainIdHex := "aa36a7".toList }
        (fun _ => { r := "r1".toList, s := "s1".toList, v := 0 })
        "dersig".toList ReceiptOutcome.success).length ≠ 1 := by
  simp [handlePendingEvmDeposit]

/-- Claim C4 (amended): per incoming event the handlers emit a fixed
command sequence — the Signer's deposit handler submits exactly two
ledger commands (`SignEvmTx`, then `ProvideEvmOutcomeSig`); the relayer's
signature handler submits no ledger command and exactly one external-chain
transaction when the anchor is found (none otherwise); the relayer's
outcome handler submits exactly one ledger command when the anchor is
found (none otherwise). -/
theorem claim4_handler_command_counts :
    (∀ (root : List Char) (ev : DepositEvent) (signTx : List Char → SigRSV)
        (outSig : List Char) (receipt : ReceiptOutcome),
      (handlePendingEvmDeposit root ev signTx outSig receipt).map ExerciseCmd.choice
        = ["SignEvmTx".toList, "ProvideEvmOutcomeSig".toList])
      ∧ (∀ (contracts : List ActiveContract) (requestId : List Char)
            (reconstruct : ActiveContract → List Char),
          (handleEcdsaSignature contracts requestId reconstruct).ledgerCommands = []
            ∧ (handleEcdsaSignature contracts requestId reconstruct).evmSubmissions.length
                = if (findPendingByRequestId contracts requestId).isSome then 1 else 0)
      ∧ (∀ (contracts : List ActiveContract) (requestId outcomeCid : List Char),
          (handleEvmTxOutcomeSignature contracts requestId outcomeCid).ledgerCommands.length
              = (if (findPendingByRequestId contracts requestId).isSome then 1 else 0)
            ∧ (handleEvmTxOutcomeSignature contracts requestId outcomeCid).evmSubmissions
                = []) := by
  refine ⟨?_, ?_, ?_⟩
  · intro root ev signTx outSig receipt
    rfl
  · intro contracts requestId reconstruct
    unfold handleEcdsaSignature
    cases hfind : findPendingByRequestId contracts requestId <;> simp [hfind]
  · intro contracts requestId outcomeCid
    unfold handleEvmTxOutcomeSignature
    cases hfind : findPendingByRequestId contracts requestId <;> simp [hfind]

/-- Claim C7: when the current-state lookup finds no pending anchor for
the event's request id, both relayer handlers return with no ledger
command and no external submission — an empty ledger-visible effect,
returned normally (neither handler has an error path on this branch). -/
theorem claim7_skip_when_no_anchor (contracts : List ActiveContract)
    (requestId outcomeCid : List Char) (reconstruct : ActiveContract → List Char)
    (h : findPendingByRequestId contracts requestId = none) :
    handleEcdsaSignature contracts requestId reconstruct
        = { ledgerCommands := [], evmSubmissions := [] }
      ∧ handleEvmTxOutcomeSignature contracts requestId outcomeCid
          = { ledgerCommands := [], evmSubmissions := [] } := by
  constructor
  · unfold handleEcdsaSignature
    rw [h]
  · unfold handleEvmTxOutcomeSignature
    rw [h]

/-- Claim C7 witness: a concrete state whose only active contract carries
a different request id. -/
theorem claim7_witness :
    findPendingByRequestId
        [{ contractId := "cid-1".toList, requestId := "other-req".toList,
           amountArgHex := "05f5e100".toList }] "req-9".toList = none
      ∧ (handleEcdsaSignature
            [{ contractId := "cid-1".toList, requestId := "other-req".toList,
               amountArgHex := "05f5e100".toList }] "req-9".toList (fun _ => [])
            = { ledgerCommands := [], evmSubmissions := [] }
          ∧ handleEvmTxOutcomeSignature
              [{ contractId := "cid-1".toList, requestId := "other-req".toList,
                 amountArgHex := "05f5e100".toList }] "req-9".toList "ocid-1".toList
              = { ledgerCommands := [], evmSubmissions := [] }) :=
  ⟨by decide, claim7_skip_when_no_anchor _ _ _ _ (by decide)⟩

/-- Claim C9: `allocateParty` is retry-safe — when the allocation request
fails with a "Party already exists" error and the party listing contains a
party with the `"<hint>::"` prefix, the listed party is returned instead
of an error (and a successful allocation returns the allocated party), so
a second call with the same hint converges on the existing party. -/
theorem claim9_allocateParty_retry_safe (hint msg p : List Char)
    (parties : List (List Char))
    (hmsg : hasInfixChars msg "Party already exists".toList = true)
    (hfind : findPartyByHint hint parties = some p) :
    allocateParty hint (HttpResult.err msg) parties = Except.ok p
      ∧ ∀ q : List Char, allocateParty hint (HttpResult.ok q) parties = Except.ok q := by
  constructor
  · unfold allocateParty
    dsimp only
    rw [if_pos hmsg, hfind]
  · intro q
    rfl

/-- Claim C9 witness: a concrete duplicate-allocation scenario. -/
theorem claim9_witness :
    hasInfixChars "error 400 Party already exists for hint".toList
        "Party already exists".toList = true
      ∧ findPartyByHint "Issuer".toList ["Issuer::1220cafe".toList]
          = some "Issuer::1220cafe".toList
      ∧ (allocateParty "Issuer".toList
            (HttpResult.err "error 400 Party already exists for hint".toList)
            ["Issuer::1220cafe".toList] = Except.ok "Issuer::1220cafe".toList
          ∧ ∀ q : List Char, allocateParty "Issuer".toList (HttpResult.ok q)
              ["Issuer::1220cafe".toList] = Except.ok q) :=
  ⟨by decide, by decide,
    claim9_allocateParty_retry_safe "Issuer".toList _ _ _ (by decide) (by decide)⟩

/-- Claim C10: `publicKeyToEthAddress` normalizes the `04` uncompressed
prefix — prefixed and bare coordinate strings give the same address — and
the address is `0x` followed by the last 40 hex characters (20 bytes) of
the keccak256 digest of the coordinate bytes. -/
theorem claim10_publicKeyToEthAddress (k : List Char)
    (h : ¬ ((['0', '4'] : List Char).isPrefixOf k = true)) :
    publicKeyToEthAddress ('0' :: '4' :: k) = publicKeyToEthAddress k
      ∧ publicKeyToEthAddress k
          = '0' :: 'x' :: (bytesToHexChars (keccak256 (hexCharsToBytes k))).drop 24
      ∧ ((bytesToHexChars (keccak256 (hexCharsToBytes k))).drop 24).length = 40 := by
  have hpre : (['0', '4'] : List Char).isPrefixOf ('0' :: '4' :: k) = true := by
    simp [List.isPrefixOf]
  have hk : publicKeyToEthAddress k
      = '0' :: 'x' :: (bytesToHexChars (keccak256 (hexCharsToBytes k))).drop 24 := by
    unfold publicKeyToEthAddress
    rw [if_neg h]
    rfl
  refine ⟨?_, hk, ?_⟩
  · unfold publicKeyToEthAddress
    rw [if_pos hpre, if_neg h]
    rfl
  · rw [List.length_drop, length_bytesToHexChars, keccak256_length]

/-- Claim C10 witness: the prefix normalization at a concrete coordinate
string. -/
theorem claim10_witness :
    ¬ ((['0', '4'] : List Char).isPrefixOf "ab".toList = true)
      ∧ (publicKeyToEthAddress ('0' :: '4' :: "ab".toList)
            = publicKeyToEthAddress "ab".toList
        ∧ publicKeyToEthAddress "ab".toList
            = '0' :: 'x'
                :: (bytesToHexChars (keccak256 (hexCharsToBytes "ab".toList))).drop 24
        ∧ ((bytesToHexChars (keccak256 (hexCharsToBytes "ab".toList))).drop 24).length
            = 40) :=
  ⟨by decide, claim10_publicKeyToEthAddress "ab".toList (by decide)⟩

/-- Claim C5: while the client is not closed, the k-th reconnection
attempt is scheduled after `min(1000 * 2^k, maxReconnectDelayMs)` (and
bumps the attempt counter); once `maxReconnectAttempts` attempts are
exhausted the client switches to HTTP polling from the currently tracked
offset; a polling iteration that hits an error reports it and retries
after the fixed `pollingErrorBackoffMs`; and the polling loop stops only
when the client is closed. -/
theorem claim5_backoff_and_polling_fallback :
    (∀ (cfg : StreamConfig) (s : StreamState), s.closed = false →
        s.reconnectAttempt < cfg.maxReconnectAttempts →
        scheduleReconnect cfg s
          = ({ s with
               reconnectAttempt := s.reconnectAttempt + 1
               reconnectTimer :=
                 some (min (1000 * 2 ^ s.reconnectAttempt) cfg.maxReconnectDelayMs) },
             ReconnectAction.timerSet
               (min (1000 * 2 ^ s.reconnectAttempt) cfg.maxReconnectDelayMs)))
      ∧ (∀ (cfg : StreamConfig) (s : StreamState), s.closed = false →
          cfg.maxReconnectAttempts ≤ s.reconnectAttempt →
          scheduleReconnect cfg s = (s, ReconnectAction.fallbackPolling s.currentOffset))
      ∧ (∀ (cfg : StreamConfig) (s : StreamState), s.closed = false →
          pollIteration cfg s PollResult.connError
            = (s, [StreamCall.onError], PollNext.backoff cfg.pollingErrorBackoffMs))
      ∧ (∀ (cfg : StreamConfig) (s : StreamState) (r : PollResult),
          (pollIteration cfg s r).2.2 = PollNext.stop → s.closed = true) := by
  refine ⟨?_, ?_, ?_, ?_⟩
  · intro cfg s hc hlt
    unfold scheduleReconnect
    rw [if_neg (by rw [hc]; exact Bool.false_ne_true), if_neg (Nat.not_le.mpr hlt)]
  · intro cfg s hc hge
    unfold scheduleReconnect
    rw [if_neg (by rw [hc]; exact Bool.false_ne_true), if_pos hge]
  · intro cfg s hc
    unfold pollIteration
    rw [if_neg (by rw [hc]; exact Bool.false_ne_true)]
  · intro cfg s r
    unfold pollIteration
    by_cases hc : s.closed = true
    · intro _
      exact hc
    · rw [if_neg hc]
      cases r <;> simp

/-- Claim C5 witness: the default configuration at attempt 3 of an open
client, and one failing polling iteration. -/
theorem claim5_witness :
    ((⟨false, 3, none, false, 42⟩ : StreamState).closed = false)
      ∧ ((⟨false, 3, none, false, 42⟩ : StreamState).reconnectAttempt
          < (⟨10000, 10, 2000, 1000⟩ : StreamConfig).maxReconnectAttempts)
      ∧ scheduleReconnect ⟨10000, 10, 2000, 1000⟩ ⟨false, 3, none, false, 42⟩
          = (⟨false, 3 + 1, some (min (1000 * 2 ^ 3) 10000), false, 42⟩,
             ReconnectAction.timerSet (min (1000 * 2 ^ 3) 10000))
      ∧ pollIteration ⟨10000, 10, 2000, 1000⟩ ⟨false, 3, none, false, 42⟩
          PollResult.connError
          = (⟨false, 3, none, false, 42⟩, [StreamCall.onError], PollNext.backoff 1000) := by
  refine ⟨rfl, by decide, ?_, ?_⟩
  · exact claim5_backoff_and_polling_fallback.1 ⟨10000, 10, 2000, 1000⟩
      ⟨false, 3, none, false, 42⟩ rfl (by decide)
  · exact claim5_backoff_and_polling_fallback.2.2.1 ⟨10000, 10, 2000, 1000⟩
      ⟨false, 3, none, false, 42⟩ rfl

/-- Claim C6 counterexample: after `close()` has run, a WebSocket message
that is still delivered to the registered `message` callback invokes the
caller's update handler — the callback does not consult the `closed`
flag, so "no further handler invocations occur after close() returns"
fails on the WebSocket message path. -/
theorem claim6_update_after_close_cex :
    (onWsMessage (close ⟨false, 0, none, true, 7⟩)
        (WsMessage.updatePayload ⟨some 9, 5⟩)).2
      = [StreamCall.onUpdate ⟨some 9, 5⟩] := by
  rfl

/-- Claim C6 (amended): `close()` is idempotent, cancels any pending
reconnect timer and tears down the transport; once closed, the reconnect
scheduling, close-event, connect and polling paths neither change state
nor invoke any handler; the WebSocket `message` callback, however, does
not check the `closed` flag, so a message the transport still delivers
after `close()` invokes the update handler. -/
theorem claim6_close_teardown :
    (∀ s : StreamState, close (close s) = close s)
      ∧ (∀ s : StreamState, (close s).closed = true ∧ (close s).reconnectTimer = none
          ∧ (close s).wsActive = false)
      ∧ (∀ (cfg : StreamConfig) (s : StreamState), s.closed = true →
          scheduleReconnect cfg s = (s, ReconnectAction.idle)
            ∧ onWsClose cfg s = (s, ReconnectAction.idle))
      ∧ (∀ s : StreamState, s.closed = true → connect s = s)
      ∧ (∀ (cfg : StreamConfig) (s : StreamState) (r : PollResult), s.closed = true →
          pollIteration cfg s r = (s, [], PollNext.stop))
      ∧ (∀ (s : StreamState) (u : UpdateItem),
          (onWsMessage s (WsMessage.updatePayload u)).2 = [StreamCall.onUpdate u]) := by
  refine ⟨?_, ?_, ?_, ?_, ?_, ?_⟩
  · intro s
    rfl
  · intro s
    exact ⟨rfl, rfl, rfl⟩
  · intro cfg s hc
    constructor
    · unfold scheduleReconnect
      rw [if_pos hc]
    · unfold onWsClose
      rw [if_pos hc]
  · intro s hc
    unfold connect
    rw [if_pos hc]
  · intro cfg s r hc
    unfold pollIteration
    rw [if_pos hc]
  · intro s u
    cases u
    rfl

/-- Claim C6 witness: a freshly closed client state. -/
theorem claim6_witness :
    ((close ⟨false, 2, some 4000, true, 9⟩).closed = true)
      ∧ (scheduleReconnect ⟨10000, 10, 2000, 1000⟩ (close ⟨false, 2, some 4000, true, 9⟩)
            = (close ⟨false, 2, some 4000, true, 9⟩, ReconnectAction.idle)
          ∧ onWsClose ⟨10000, 10, 2000, 1000⟩ (close ⟨false, 2, some 4000, true, 9⟩)
            = (close ⟨false, 2, some 4000, true, 9⟩, ReconnectAction.idle))
      ∧ connect (close ⟨false, 2, some 4000, true, 9⟩) = close ⟨false, 2, some 4000, true, 9⟩
      ∧ pollIteration ⟨10000, 10, 2000, 1000⟩ (close ⟨false, 2, some 4000, true, 9⟩)
          PollResult.connError
          = (close ⟨false, 2, some 4000, true, 9⟩, [], PollNext.stop) :=
  ⟨rfl,
    claim6_close_teardown.2.2.1 ⟨10000, 10, 2000, 1000⟩ (close ⟨false, 2, some 4000, true, 9⟩) rfl,
    claim6_close_teardown.2.2.2.1 (close ⟨false, 2, some 4000, true, 9⟩) rfl,
    claim6_close_teardown.2.2.2.2.1 ⟨10000, 10, 2000, 1000⟩
      (close ⟨false, 2, some 4000, true, 9⟩) PollResult.connError rfl⟩

end CantonPoc
